import Mathlib

/-!
Verification of the akita entity store core: the normalized entity
collection and its mutation operations (entityStore.ts), the transaction
batching engine (transaction.ts, store.ts), the entity collection plugin
reconciliation algorithm (entityCollectionPlugin.ts) and the entity state
history plugin accessors (entityStateHistoryPlugin.ts).

Helper reducers that the entity store imports but whose files are not part
of the sources (setEntities, addEntities, updateEntities, removeEntities,
hasEntity, toBoolean) are modelled from the specification; each such
definition carries a doc comment starting with the words Modelled from the
spec.
-/

namespace Akita

/-- JavaScript style primitive values stored in entity fields and used as
entity identifiers. The constructor vundef models the JavaScript undefined
value, for example the result of reading a missing property. -/
inductive Val where
  | vnat (n : Nat)
  | vstr (s : String)
  | vundef
  deriving DecidableEq

/-- A JavaScript plain object, as an ordered list of field and value pairs. -/
abbrev Obj := List (String × Val)

/-- Property read on an object: the first binding of the key, if any. -/
def objGet (o : Obj) (k : String) : Option Val :=
  (o.find? (fun p => decide (p.1 = k))).map (fun p => p.2)

/-- JavaScript object spread of two objects: fields of the second override
fields of the first. -/
def objMerge (a b : Obj) : Obj :=
  a.filter (fun p => !(b.any (fun q => decide (q.1 = p.1)))) ++ b

/-- The default id key, DEFAULT_ID_KEY. The embedding fixes the store
configuration at its default. -/
def idKey : String := "id"

/-- Reading the id field of an entity record as JavaScript does: a missing
property reads as undefined. -/
def getIdV (o : Obj) : Val := (objGet o idKey).getD Val.vundef

/-- Lookup in an association map keyed by identifier values, modelling a
JavaScript Map or a keyed object. -/
def alookup {α : Type} (m : List (Val × α)) (k : Val) : Option α :=
  (m.find? (fun p => decide (p.1 = k))).map (fun p => p.2)

/-- Insertion in an association map: an existing key keeps its position and
has its value replaced, a fresh key is appended. -/
def aset {α : Type} (m : List (Val × α)) (k : Val) (v : α) : List (Val × α) :=
  if (alookup m k).isSome then
    m.map (fun p => if p.1 = k then (k, v) else p)
  else m ++ [(k, v)]

/-- The normalized entity collection state: ordered id list, the id to
entity mapping, the active id sequence and the loading flag. The loading
flag is an optional boolean so that the JavaScript undefined value of the
field is representable. -/
structure EntityCollState where
  ids : List Val
  entities : List (Val × Obj)
  active : List Val
  loading : Option Bool
  deriving DecidableEq

/-- Modelled from the spec: the hasEntity utility imported by the entity
store (its file is not among the sources). Whether the entities mapping has
a record under the given id. -/
def hasEntity (entities : List (Val × Obj)) (id : Val) : Bool :=
  (alookup entities id).isSome

/-- Modelled from the spec: the setEntities reducer (file not among the
sources), sequence input form. It computes a fresh ids sequence preserving
input order and a fresh entities mapping; the per entity hook is left at
its identity default. -/
def setEntities (st : EntityCollState) (ents : List Obj) : EntityCollState :=
  { st with ids := ents.map getIdV, entities := ents.map (fun e => (getIdV e, e)) }

/-- Modelled from the spec: the addEntities reducer (file not among the
sources). Each new record is appended, or prepended when requested, and its
id is inserted into ids; the base operation does not dedupe. -/
def addEntities (st : EntityCollState) (ents : List Obj) (prepend : Bool) : EntityCollState :=
  let newIds := ents.map getIdV
  { st with
    ids := if prepend then newIds ++ st.ids else st.ids ++ newIds,
    entities := ents.foldl (fun m e => aset m (getIdV e) e) st.entities }

/-- Modelled from the spec: the updateEntities reducer (file not among the
sources), object patch form. The patch is merged onto each selected entity;
the pre update hook is left at its identity default. -/
def updateEntities (st : EntityCollState) (ids : List Val) (patch : Obj) : EntityCollState :=
  { st with
    entities :=
      ids.foldl (fun m i => aset m i (objMerge ((alookup m i).getD []) patch)) st.entities }

/-- Modelled from the spec: the removeEntities reducer (file not among the
sources). A target of none is the remove all path, which resets ids and
entities to empty; an explicit id list deletes exactly those ids from both
entities and ids. Neither path prunes the active sequence. -/
def removeEntities (st : EntityCollState) (ids : Option (List Val)) : EntityCollState :=
  match ids with
  | Option.none => { st with ids := [], entities := [] }
  | Option.some l =>
      { st with
        ids := st.ids.filter (fun i => !(l.any (fun j => decide (j = i)))),
        entities := st.entities.filter (fun p => !(l.any (fun j => decide (j = p.1)))) }

/-- An entity store instance: its collection state, the has cache flag held
next to the state (the cache subject in store.ts), and a counter of state
writes, one per invocation of the internal setState, so that the absence of
a state write is expressible. -/
structure EStore where
  state : EntityCollState
  hasCache : Bool
  writes : Nat
  deriving DecidableEq

namespace EStore

/-- The internal setState of store.ts restricted to its state effect:
apply the reducer and count one state write. -/
def setState (w : EStore) (f : EntityCollState → EntityCollState) : EStore :=
  { w with state := f w.state, writes := w.writes + 1 }

/-- setHasCache of store.ts: install the flag (writing an equal value is
indistinguishable on the flag itself). -/
def setHasCache (w : EStore) (b : Bool) : EStore := { w with hasCache := b }

/-- The set operation of entityStore.ts, sequence input form: replace the
collection through setEntities, then updateCache marks the cache as set. -/
def set (w : EStore) (ents : List Obj) : EStore :=
  (w.setState (fun st => setEntities st ents)).setHasCache true

/-- The options object of the add operation; the default value supplies
loading as false and leaves prepend undefined (falsy). -/
structure AddOptions where
  loading : Option Bool
  prepend : Bool
  deriving DecidableEq

/-- The default options literal of add in entityStore.ts. -/
def defaultAddOptions : AddOptions := { loading := Option.some false, prepend := false }

/-- The add operation of entityStore.ts: no-op on an empty input sequence;
otherwise one state write installing the addEntities result with the
loading flag overwritten by the loading value of the options. -/
def add (w : EStore) (ents : List Obj) (options : AddOptions) : EStore :=
  if ents.isEmpty then w
  else
    w.setState (fun st =>
      { addEntities st ents options.prepend with loading := options.loading })

/-- The update operation of entityStore.ts, entity target path with an
explicit id list and an object patch: no-op when the resolved id list is
empty, otherwise one state write through updateEntities. -/
def update (w : EStore) (ids : List Val) (patch : Obj) : EStore :=
  if ids.isEmpty then w
  else w.setState (fun st => updateEntities st ids patch)

/-- The upsert operation of entityStore.ts with an object patch: the input
ids that already have an entity are routed to update, the remaining ids are
built by merging the patch with the id under the id key and routed to add
with the default options. Both filters read the entities mapping of the
original state, as the source does before any write. -/
def upsert (w : EStore) (ids : List Val) (patch : Obj) : EStore :=
  let updateIds := ids.filter (fun i => hasEntity w.state.entities i)
  let newEntities :=
    (ids.filter (fun i => !(hasEntity w.state.entities i))).map
      (fun i => objMerge patch [(idKey, i)])
  (EStore.update w updateIds patch).add newEntities defaultAddOptions

/-- The options object of upsertMany; the base class option is left at its
identity default. -/
structure UpsertManyOptions where
  loading : Option Bool
  deriving DecidableEq

/-- JavaScript double negation coercion of an optional boolean. -/
def toBool (o : Option Bool) : Bool := o.getD false

/-- The upsertMany operation of entityStore.ts: a single pass over the
input records, each checked against the entities mapping of the original
state; records with a known id are merged onto the stored entity, fresh ids
are collected in order. One state write appends the fresh ids to ids when
there are any, spreads the collected records over the entities mapping, and
overwrites loading with the coerced loading option. -/
def upsertMany (w : EStore) (ents : List Obj) (options : UpsertManyOptions) : EStore :=
  let step := fun (acc : List Val × List (Val × Obj)) (e : Obj) =>
    let i := getIdV e
    if hasEntity w.state.entities i then
      (acc.1, aset acc.2 i (objMerge ((alookup w.state.entities i).getD []) e))
    else
      (acc.1 ++ [i], aset acc.2 i e)
  let r := ents.foldl step ([], [])
  w.setState (fun st =>
    { st with
      ids := if r.1.isEmpty then st.ids else st.ids ++ r.1,
      entities := r.2.foldl (fun m p => aset m p.1 p.2) st.entities,
      loading := Option.some (toBool options.loading) })

end EStore

/-- The target argument of the remove operation: absent (remove all), one
id, an id list, or a predicate over entities. -/
inductive RemoveArg where
  | absent
  | one (i : Val)
  | many (l : List Val)
  | byPred (p : Obj → Bool)

namespace EStore

/-- Resolution of the removal target in the remove operation of
entityStore.ts: a predicate filters the current ids by the predicate on
their entities, an explicit id or id list resolves to that list coerced to
an array, and an absent target resolves to null (here none), meaning remove
all. -/
def resolveRemove (w : EStore) : RemoveArg → Option (List Val)
  | RemoveArg.absent => Option.none
  | RemoveArg.one i => Option.some [i]
  | RemoveArg.many l => Option.some l
  | RemoveArg.byPred p =>
      Option.some (w.state.ids.filter (fun i => p ((alookup w.state.entities i).getD [])))

/-- The remove operation of entityStore.ts: returns unchanged when the
collection ids are empty, and again when the resolved target is an empty
list (a null resolution, meaning remove all, is not an empty list);
otherwise one state write through removeEntities, and only the null path
additionally resets the has cache flag. -/
def remove (w : EStore) (arg : RemoveArg) : EStore :=
  if w.state.ids.isEmpty then w
  else
    let ids := resolveRemove w arg
    if ids = Option.some [] then w
    else
      let w' := w.setState (fun st => removeEntities st ids)
      if ids = Option.none then w'.setHasCache false else w'

end EStore

/-! ## Transaction coordination

The world below embeds the process wide transaction depth counter of
transaction.ts together with one observed store of store.ts: its current
value, its deferred dispatch flag (the inTransaction field set by
handleTransaction and cleared when the batch subject fires) and the ordered
list of notifications dispatched to the subscribers of that store. The
depth counter is an integer, as in the source. -/
structure TxWorld (σ : Type) where
  depth : Int
  value : σ
  deferred : Bool
  log : List σ
  deriving DecidableEq

namespace Tx

/-- isTransactionInProcess of transaction.ts: the depth counter is
positive. -/
def inProcess {σ : Type} (w : TxWorld σ) : Bool := decide (0 < w.depth)

/-- startBatch of transaction.ts restricted to its counter effect: the
depth counter is incremented (a transition from zero also opens a fresh
batch subject, which the deferred flag of the world stands for). -/
def startBatch {σ : Type} (w : TxWorld σ) : TxWorld σ := { w with depth := w.depth + 1 }

/-- The private dispatch of store.ts: emit the current value to the
subscribers of the store. -/
def dispatch {σ : Type} (w : TxWorld σ) : TxWorld σ := { w with log := w.log ++ [w.value] }

/-- endBatch of transaction.ts: the depth counter is decremented and, when
it reaches exactly zero, the batch subject fires once, upon which a store
that deferred its dispatch (watchTransaction) dispatches its latest value,
leaves the deferred state and unsubscribes. -/
def endBatch {σ : Type} (w : TxWorld σ) : TxWorld σ :=
  let w' := { w with depth := w.depth - 1 }
  if w'.depth = 0 ∧ w.deferred = true then dispatch { w' with deferred := false } else w'

/-- The internal setState of store.ts on an initialized store: install the
new value, then either defer (handleTransaction marks the store as waiting
on the batch subject) when a transaction is in process, or dispatch
immediately. -/
def setState {σ : Type} (f : σ → σ) (w : TxWorld σ) : TxWorld σ :=
  let w' := { w with value := f w.value }
  if inProcess w' then { w' with deferred := true } else dispatch w'

/-- A block of synchronous store code: a single mutation of the observed
store, sequencing, the empty block, or a nested applyTransaction around a
block. -/
inductive TxOp (σ : Type) where
  | mutate (f : σ → σ)
  | seq (a b : TxOp σ)
  | skip
  | tx (body : TxOp σ)

/-- Running a block against the world; a tx block runs startBatch, its
body, then endBatch, which is applyTransaction of transaction.ts for a
body that does not throw. -/
def runOp {σ : Type} : TxOp σ → TxWorld σ → TxWorld σ
  | TxOp.mutate f, w => setState f w
  | TxOp.seq a b, w => runOp b (runOp a w)
  | TxOp.skip, w => w
  | TxOp.tx body, w => endBatch (runOp body (startBatch w))

/-- The number of mutations of the observed store in a block. -/
def countMut {σ : Type} : TxOp σ → Nat
  | TxOp.mutate _ => 1
  | TxOp.seq a b => countMut a + countMut b
  | TxOp.skip => 0
  | TxOp.tx body => countMut body

/-- The cumulative effect of all mutations of a block, applied in order. -/
def applyMut {σ : Type} : TxOp σ → σ → σ
  | TxOp.mutate f, s => f s
  | TxOp.seq a b, s => applyMut b (applyMut a s)
  | TxOp.skip, s => s
  | TxOp.tx body, s => applyMut body s

/-- A store action that may throw: it returns the world as mutated up to
the point of the throw, together with the thrown error if any. -/
def ExAction (σ ε : Type) := TxWorld σ → TxWorld σ × Option ε

/-- applyTransaction of transaction.ts over actions that may throw:
startBatch, run the action, and endBatch in the finally block whether or
not the action threw; the error, if any, is rethrown to the caller. -/
def applyTransaction {σ ε : Type} (action : ExAction σ ε) (w : TxWorld σ) :
    TxWorld σ × Option ε :=
  let r := action (startBatch w)
  (endBatch r.1, r.2)

end Tx

/-! ## Entity collection plugin reconciliation -/

/-- Modelled from the spec: the toBoolean utility (file not among the
sources) applied to the changedIds argument of rebase; an absent or empty
value is falsy. -/
def toBooleanIds (ids : Option (List Val)) : Bool :=
  match ids with
  | Option.none => false
  | Option.some l => !l.isEmpty

namespace Plugin

/-- getIds of entityCollectionPlugin.ts: the fixed entityIds subset when
one was given at construction, otherwise all current ids of the
collection. -/
def getIds (entityIds : Option (List Val)) (queryIds : List Val) : List Val :=
  match entityIds with
  | Option.none => queryIds
  | Option.some l => l

/-- rebase of entityCollectionPlugin.ts acting on the satellite mapping.
The arguments are the plugin factory, the fixed entityIds subset (none in
all ids mode), the current ids of the collection (read by getIds on the
seed path), the changedIds argument, and the mapping. When changedIds is
truthy, all ids mode first creates a satellite for every changed id that
lacks one and then sweeps away every satellite whose id is not among the
changed ids, while subset mode walks the fixed subset, creating a missing
satellite for a subset id among the changed ids and otherwise sweeping
satellites not among the changed ids. When changedIds is falsy, the seed
path creates a satellite for every currently tracked id that lacks one.
The before and after callbacks and the destroy hook act on satellites, not
on the mapping, and are not modelled. -/
def rebase {P : Type} (inst : Val → P) (entityIds : Option (List Val)) (queryIds : List Val)
    (ids : Option (List Val)) (m : List (Val × P)) : List (Val × P) :=
  if toBooleanIds ids then
    let l := ids.getD []
    match entityIds with
    | Option.none =>
        let m1 := l.foldl (fun acc i =>
          if (alookup acc i).isSome then acc else aset acc i (inst i)) m
        m1.filter (fun p => decide (p.1 ∈ l))
    | Option.some sub =>
        sub.foldl (fun acc i =>
          if decide (i ∈ l) && !(alookup acc i).isSome then aset acc i (inst i)
          else acc.filter (fun p => decide (p.1 ∈ l))) m
  else
    (getIds entityIds queryIds).foldl
      (fun acc i => if (alookup acc i).isSome then acc else aset acc i (inst i)) m

/-- activate of entityCollectionPlugin.ts: the base activation simply
rebases with the given ids. -/
def activate {P : Type} (inst : Val → P) (entityIds : Option (List Val)) (queryIds : List Val)
    (ids : Option (List Val)) (m : List (Val × P)) : List (Val × P) :=
  rebase inst entityIds queryIds ids m

end Plugin

/-- A collection operation of the set, add or remove family, as exercised
against the reconciliation engine. -/
inductive CollOp where
  | cset (ents : List Obj)
  | cadd (ents : List Obj)
  | crem (arg : RemoveArg)

/-- Application of one collection operation to a store. -/
def applyCollOp (op : CollOp) (w : EStore) : EStore :=
  match op with
  | CollOp.cset ents => w.set ents
  | CollOp.cadd ents => w.add ents EStore.defaultAddOptions
  | CollOp.crem arg => w.remove arg

/-- One collection operation followed by the reconciliation that the id
stream subscription of the plugin triggers: an all ids mode plugin rebases
with the new id list of the collection. -/
def pluginStep {P : Type} (inst : Val → P) (s : EStore × List (Val × P)) (op : CollOp) :
    EStore × List (Val × P) :=
  let w := applyCollOp op s.1
  (w, Plugin.rebase inst Option.none w.state.ids (Option.some w.state.ids) s.2)

/-- A sequence of collection operations, each followed by its
reconciliation. -/
def pluginRun {P : Type} (inst : Val → P) (s : EStore × List (Val × P)) (ops : List CollOp) :
    EStore × List (Val × P) :=
  ops.foldl (pluginStep inst) s

/-- The initial activation of an all ids mode plugin on an empty mapping,
as the constructor of the entity state history plugin performs it: the
seed path creates a satellite for every current id. -/
def seedAll {P : Type} (inst : Val → P) (w : EStore) : List (Val × P) :=
  Plugin.rebase inst Option.none w.state.ids Option.none []

/-- Whether every operation of the sequence leaves the collection with a
non empty id list, so that each reconciliation receives a non empty
changedIds value. -/
def stepsOk (ops : List CollOp) (w : EStore) : Bool :=
  match ops with
  | [] => true
  | op :: rest =>
      let w' := applyCollOp op w
      !w'.state.ids.isEmpty && stepsOk rest w'

/-! ## Entity state history plugin accessors -/

/-- Modelled from the spec: the state of one state history satellite as far
as its hasPast and hasFuture accessors are concerned (the past stack and
the future stack being non empty); the stateHistoryPlugin file is not among
the sources. -/
structure Sat where
  hasPast : Bool
  hasFuture : Bool
  deriving DecidableEq

namespace EntityStateHistoryPlugin

/-- hasPast of entityStateHistoryPlugin.ts: guarded by hasEntity, it reads
the hasPast accessor of the satellite of a tracked id, and otherwise falls
through, returning undefined (none). -/
def hasPast (m : List (Val × Sat)) (id : Val) : Option Bool :=
  if (alookup m id).isSome then (alookup m id).map Sat.hasPast else Option.none

/-- hasFuture of entityStateHistoryPlugin.ts: guarded by hasEntity, it
reads the hasFuture accessor of the satellite of a tracked id, and
otherwise falls through, returning undefined (none). -/
def hasFuture (m : List (Val × Sat)) (id : Val) : Option Bool :=
  if (alookup m id).isSome then (alookup m id).map Sat.hasFuture else Option.none

end EntityStateHistoryPlugin

/-! ## Association map lemmas -/

theorem alookup_cons {α : Type} (p : Val × α) (t : List (Val × α)) (k : Val) :
    alookup (p :: t) k = if p.1 = k then Option.some p.2 else alookup t k := by
  by_cases h : p.1 = k
  · simp [alookup, List.find?_cons_of_pos, h]
  · simp [alookup, List.find?_cons_of_neg, h]

theorem alookup_append {α : Type} (m l : List (Val × α)) (i : Val) :
    alookup (m ++ l) i = (alookup m i).or (alookup l i) := by
  simp only [alookup, List.find?_append]
  cases List.find? (fun p => decide (p.1 = i)) m <;> simp

theorem alookup_map_replace {α : Type} (m : List (Val × α)) (k : Val) (v : α)
    (h : (alookup m k).isSome = true) :
    alookup (m.map (fun p => if p.1 = k then (k, v) else p)) k = Option.some v := by
  induction m with
  | nil => simp [alookup] at h
  | cons p t ih =>
    by_cases hp : p.1 = k
    · simp [List.map_cons, hp, alookup_cons]
    · have h' : (alookup t k).isSome = true := by
        simpa [alookup_cons, hp] using h
      simpa [List.map_cons, hp, alookup_cons] using ih h'

theorem alookup_map_replace_ne {α : Type} (m : List (Val × α)) (k i : Val) (v : α)
    (hik : i ≠ k) :
    alookup (m.map (fun p => if p.1 = k then (k, v) else p)) i = alookup m i := by
  induction m with
  | nil => rfl
  | cons p t ih =>
    by_cases hp : p.1 = k
    · have hki : ¬ (k = i) := fun hh => hik hh.symm
      have hpi : ¬ (p.1 = i) := by rw [hp]; exact hki
      simpa [List.map_cons, hp, alookup_cons, hki, hpi] using ih
    · by_cases hpi : p.1 = i
      · simp [List.map_cons, hp, alookup_cons, hpi, hik]
      · simpa [List.map_cons, hp, alookup_cons, hpi] using ih

theorem alookup_aset_self {α : Type} (m : List (Val × α)) (k : Val) (v : α) :
    alookup (aset m k v) k = Option.some v := by
  unfold aset
  by_cases h : (alookup m k).isSome = true
  · rw [if_pos h]
    exact alookup_map_replace m k v h
  · rw [if_neg h, alookup_append]
    have hm : alookup m k = Option.none := by
      cases hc : alookup m k
      · rfl
      · rw [hc] at h; simp at h
    rw [hm]
    simp [alookup_cons]

theorem alookup_aset_ne {α : Type} (m : List (Val × α)) (k i : Val) (v : α) (hik : i ≠ k) :
    alookup (aset m k v) i = alookup m i := by
  unfold aset
  by_cases h : (alookup m k).isSome = true
  · rw [if_pos h]
    exact alookup_map_replace_ne m k i v hik
  · rw [if_neg h, alookup_append]
    have hs : alookup [(k, v)] i = Option.none := by
      have hki : ¬ (k = i) := fun hh => hik hh.symm
      simp [alookup_cons, hki, alookup]
    rw [hs]
    cases alookup m i <;> rfl

theorem alookup_isSome_iff {α : Type} (m : List (Val × α)) (i : Val) :
    (alookup m i).isSome = true ↔ ∃ p ∈ m, p.1 = i := by
  simp [alookup, List.find?_isSome]

theorem alookup_filter_mem {α : Type} (m : List (Val × α)) (l : List Val) (i : Val) :
    (alookup (m.filter (fun p => decide (p.1 ∈ l))) i).isSome = true ↔
      ((alookup m i).isSome = true ∧ i ∈ l) := by
  rw [alookup_isSome_iff, alookup_isSome_iff]
  constructor
  · rintro ⟨p, hp, hi⟩
    rw [List.mem_filter] at hp
    have hl : i ∈ l := by
      have := hp.2
      simpa [hi] using this
    exact ⟨⟨p, hp.1, hi⟩, hl⟩
  · rintro ⟨⟨p, hp, hi⟩, hl⟩
    refine ⟨p, ?_, hi⟩
    rw [List.mem_filter]
    exact ⟨hp, by simpa [hi] using hl⟩

/-! ## Claim theorems -/

/-- Claim C4: if the action passed to applyTransaction raises, the depth
counter is still decremented by the endBatch in the cleanup block and the
error still propagates. The first conjunct runs the full scenario: an outer
transaction whose action mutates the store and then calls an inner
applyTransaction whose action mutates the store and throws; the error
reaches the caller, the depth counter returns to zero, and the outer
endBatch still releases the deferred store, which dispatches the cumulative
state once. The remaining conjuncts state, for every action and world, that
the returned error is exactly the error of the action and that the
resulting world is the endBatch of the world the action left behind, so
cleanup runs regardless of failure. -/
theorem C4_transaction_cleanup_on_error {σ ε : Type} (f g : σ → σ) (e : ε) (s0 : σ)
    (action : Tx.ExAction σ ε) (w : TxWorld σ) :
    (Tx.applyTransaction
        (fun w1 => Tx.applyTransaction
          (fun w2 => (Tx.setState g w2, Option.some e)) (Tx.setState f w1))
        ⟨0, s0, false, []⟩
      = (⟨0, g (f s0), false, [g (f s0)]⟩, Option.some e))
      ∧ (Tx.applyTransaction action w).2 = (action (Tx.startBatch w)).2
      ∧ (Tx.applyTransaction action w).1 = Tx.endBatch (action (Tx.startBatch w)).1 :=
  ⟨rfl, rfl, rfl⟩

/-- Claim C10: for an id with no satellite tracked by the entity state
history plugin, hasPast and hasFuture return undefined (none) rather than
false or raising, while for a tracked id they return the boolean hasPast
and hasFuture of the satellite. -/
theorem C10_hasPast_hasFuture_untracked (m : List (Val × Sat)) (id : Val) :
    (alookup m id = Option.none →
        EntityStateHistoryPlugin.hasPast m id = Option.none
          ∧ EntityStateHistoryPlugin.hasFuture m id = Option.none)
      ∧ (∀ s, alookup m id = Option.some s →
        EntityStateHistoryPlugin.hasPast m id = Option.some s.hasPast
          ∧ EntityStateHistoryPlugin.hasFuture m id = Option.some s.hasFuture) := by
  constructor
  · intro h
    constructor
    · simp [EntityStateHistoryPlugin.hasPast, h]
    · simp [EntityStateHistoryPlugin.hasFuture, h]
  · intro s h
    constructor
    · simp [EntityStateHistoryPlugin.hasPast, h]
    · simp [EntityStateHistoryPlugin.hasFuture, h]

theorem C10_witness :
    alookup ([(Val.vnat 1, (⟨true, false⟩ : Sat))]) (Val.vnat 2) = Option.none
      ∧ EntityStateHistoryPlugin.hasPast [(Val.vnat 1, (⟨true, false⟩ : Sat))] (Val.vnat 2)
          = Option.none
      ∧ EntityStateHistoryPlugin.hasFuture [(Val.vnat 1, (⟨true, false⟩ : Sat))] (Val.vnat 2)
          = Option.none
      ∧ alookup ([(Val.vnat 1, (⟨true, false⟩ : Sat))]) (Val.vnat 1)
          = Option.some ⟨true, false⟩
      ∧ EntityStateHistoryPlugin.hasPast [(Val.vnat 1, (⟨true, false⟩ : Sat))] (Val.vnat 1)
          = Option.some true
      ∧ EntityStateHistoryPlugin.hasFuture [(Val.vnat 1, (⟨true, false⟩ : Sat))] (Val.vnat 1)
          = Option.some false := by
  have h1 := (C10_hasPast_hasFuture_untracked
      [(Val.vnat 1, (⟨true, false⟩ : Sat))] (Val.vnat 2)).1 (by decide)
  have h2 := (C10_hasPast_hasFuture_untracked
      [(Val.vnat 1, (⟨true, false⟩ : Sat))] (Val.vnat 1)).2 ⟨true, false⟩ (by decide)
  exact ⟨by decide, h1.1, h1.2, by decide, h2.1, h2.2⟩

/-- Claim C9: every add invocation that actually adds entities (a non empty
input) overwrites the loading flag of the collection with the loading value
of its options, which is false under the default options, and every
upsertMany invocation overwrites loading with the double negation coercion
of its loading option. -/
theorem C9_add_upsertMany_overwrite_loading (w : EStore) (ents ents2 : List Obj)
    (o1 : EStore.AddOptions) (o2 : EStore.UpsertManyOptions) (h : ents ≠ []) :
    (EStore.add w ents o1).state.loading = o1.loading
      ∧ (EStore.add w ents EStore.defaultAddOptions).state.loading = Option.some false
      ∧ (EStore.upsertMany w ents2 o2).state.loading
          = Option.some (EStore.toBool o2.loading) := by
  have he : ents.isEmpty = false := by
    cases ents
    · exact absurd rfl h
    · rfl
  refine ⟨?_, ?_, rfl⟩
  · simp [EStore.add, he, EStore.setState]
  · simp [EStore.add, he, EStore.setState, EStore.defaultAddOptions]

theorem C9_witness :
    ([([("id", Val.vnat 7)] : Obj)] : List Obj) ≠ []
      ∧ (EStore.add ⟨⟨[], [], [], Option.none⟩, false, 0⟩ [[("id", Val.vnat 7)]]
          ⟨Option.some true, false⟩).state.loading = Option.some true
      ∧ (EStore.add ⟨⟨[], [], [], Option.none⟩, false, 0⟩ [[("id", Val.vnat 7)]]
          EStore.defaultAddOptions).state.loading = Option.some false
      ∧ (EStore.upsertMany ⟨⟨[], [], [], Option.none⟩, false, 0⟩ [[("id", Val.vnat 8)]]
          ⟨Option.none⟩).state.loading = Option.some false := by
  have h := C9_add_upsertMany_overwrite_loading ⟨⟨[], [], [], Option.none⟩, false, 0⟩
      [[("id", Val.vnat 7)]] [[("id", Val.vnat 8)]] ⟨Option.some true, false⟩ ⟨Option.none⟩
      (by decide)
  exact ⟨by decide, h.1, h.2.1, h.2.2⟩

/-- Claim C8 counterexample: an all ids mode plugin whose collection
currently holds id 1 while its satellite mapping is empty; a rebase call
with an empty changedIds list does perform an operation, creating the
satellite for id 1, so the mapping is not left unchanged. -/
theorem C8_counterexample :
    Plugin.rebase (fun _ => ()) Option.none [Val.vnat 1] (Option.some []) []
        = [(Val.vnat 1, ())]
      ∧ ([(Val.vnat 1, ())] : List (Val × Unit)) ≠ [] := by
  constructor
  · decide
  · decide

/-- Claim C8 amended: rebase cannot distinguish a reconciliation call from
the initial activation; an empty changedIds list is falsy and therefore
behaves exactly like the initial seed call (first conjunct): the reconcile
branch is skipped, no satellite is destroyed, and the seed path creates a
satellite for every currently tracked id lacking one. In particular, in all
ids mode with an empty current id list (the only way the id stream produces
an empty changedIds), the call is a true no-op (second conjunct). -/
theorem C8_amended {P : Type} (inst : Val → P) (entityIds : Option (List Val))
    (queryIds : List Val) (m : List (Val × P)) :
    Plugin.rebase inst entityIds queryIds (Option.some []) m
        = Plugin.rebase inst entityIds queryIds Option.none m
      ∧ Plugin.rebase inst Option.none [] (Option.some []) m = m :=
  ⟨rfl, rfl⟩

/-- The entity records of the upsertMany scenario of the spec. -/
def sampleE1 : Obj := [("id", Val.vnat 1)]

def sampleE2 : Obj := [("id", Val.vnat 2)]

def sampleU1 : Obj := [("id", Val.vnat 1), ("title", Val.vstr "x")]

def sampleU3 : Obj := [("id", Val.vnat 3), ("title", Val.vstr "y")]

/-- A freshly constructed store with the empty initial collection. -/
def sampleStore : EStore := ⟨⟨[], [], [], Option.none⟩, false, 0⟩

/-- The scenario run: set the collection to entities 1 and 2, then
upsertMany with an update for id 1 and a fresh record for id 3. -/
def sampleScenarioC : EStore :=
  EStore.upsertMany (EStore.set sampleStore [sampleE1, sampleE2]) [sampleU1, sampleU3]
    ⟨Option.none⟩

/-- Claim C6: after set with ids 1 and 2, an upsertMany with records for
ids 1 and 3 updates entity 1 in place by merging the new fields onto the
stored entity, appends entity 3, leaves entity 2 untouched, and leaves the
id list equal to 1, 2, 3 in that order. -/
theorem C6_upsertMany_scenario :
    sampleScenarioC.state.ids = [Val.vnat 1, Val.vnat 2, Val.vnat 3]
      ∧ alookup sampleScenarioC.state.entities (Val.vnat 1)
          = Option.some (objMerge sampleE1 sampleU1)
      ∧ objMerge sampleE1 sampleU1 = [("id", Val.vnat 1), ("title", Val.vstr "x")]
      ∧ alookup sampleScenarioC.state.entities (Val.vnat 3) = Option.some sampleU3
      ∧ alookup sampleScenarioC.state.entities (Val.vnat 2) = Option.some sampleE2 := by
  refine ⟨by decide, by decide, by decide, by decide, by decide⟩

/-! ## Transaction coalescing -/

theorem decide_pos_add (a b : Nat) :
    decide (0 < a + b) = (decide (0 < a) || decide (0 < b)) := by
  by_cases ha : 0 < a <;> by_cases hb : 0 < b <;> simp [ha, hb]

/-- While the depth counter is positive, running any block dispatches
nothing: the depth is unchanged, the value is the cumulative effect of the
mutations of the block, the deferred flag becomes set as soon as the block
holds at least one mutation, and the notification log is untouched. -/
theorem runOp_in_transaction {σ : Type} (op : Tx.TxOp σ) :
    ∀ w : TxWorld σ, 1 ≤ w.depth →
      Tx.runOp op w =
        { depth := w.depth, value := Tx.applyMut op w.value,
          deferred := w.deferred || decide (0 < Tx.countMut op), log := w.log } := by
  induction op with
  | mutate f =>
    intro w h
    have hp : Tx.inProcess { w with value := f w.value } = true := by
      simp [Tx.inProcess]; omega
    simp [Tx.runOp, Tx.setState, hp, Tx.countMut, Tx.applyMut]
  | seq a b iha ihb =>
    intro w h
    rw [Tx.runOp, iha w h]
    rw [ihb _ (by simpa using h)]
    simp [Tx.countMut, Tx.applyMut, decide_pos_add, Bool.or_assoc]
  | skip =>
    intro w h
    simp [Tx.runOp, Tx.countMut, Tx.applyMut]
  | tx body ih =>
    intro w h
    rw [Tx.runOp, ih (Tx.startBatch w) (by simp [Tx.startBatch]; omega)]
    have hd : w.depth + 1 - 1 = w.depth := by omega
    have hne : ¬ (w.depth + 1 - 1 = 0 ∧ (w.deferred || decide (0 < Tx.countMut body)) = true) := by
      intro hc
      omega
    simp only [Tx.endBatch, Tx.startBatch]
    rw [if_neg hne]
    simp [Tx.countMut, Tx.applyMut, hd]

/-- Claim C1: a store mutated two or more times inside one possibly nested
transaction delivers exactly one notification to its subscribers, carrying
the cumulative state of all the mutations, and nothing is dispatched while
the body of the outermost transaction is still running: the single
notification is produced by the endBatch of the outermost transaction. -/
theorem C1_transaction_single_notification {σ : Type} (body : Tx.TxOp σ) (s0 : σ)
    (h : 2 ≤ Tx.countMut body) :
    Tx.runOp (Tx.TxOp.tx body) ⟨0, s0, false, []⟩
        = ⟨0, Tx.applyMut body s0, false, [Tx.applyMut body s0]⟩
      ∧ (Tx.runOp body (Tx.startBatch ⟨0, s0, false, []⟩)).log = [] := by
  have hb : Tx.startBatch (⟨0, s0, false, []⟩ : TxWorld σ) = ⟨1, s0, false, []⟩ := rfl
  have hr := runOp_in_transaction body (⟨1, s0, false, []⟩ : TxWorld σ) (by norm_num)
  have hc : decide (0 < Tx.countMut body) = true := by
    simp; omega
  constructor
  · rw [Tx.runOp, hb, hr]
    simp only [Tx.endBatch, Tx.dispatch, hc, Bool.false_or]
    norm_num
  · rw [hb, hr]

theorem C1_witness :
    2 ≤ Tx.countMut (Tx.TxOp.seq (Tx.TxOp.mutate (fun n => n + 1))
        (Tx.TxOp.tx (Tx.TxOp.mutate (fun n => n * 2))))
      ∧ Tx.runOp (Tx.TxOp.tx (Tx.TxOp.seq (Tx.TxOp.mutate (fun n => n + 1))
            (Tx.TxOp.tx (Tx.TxOp.mutate (fun n => n * 2)))))
          ⟨0, (3 : Nat), false, []⟩ = ⟨0, 8, false, [8]⟩
      ∧ (Tx.runOp (Tx.TxOp.seq (Tx.TxOp.mutate (fun n => n + 1))
            (Tx.TxOp.tx (Tx.TxOp.mutate (fun n => n * 2))))
          (Tx.startBatch ⟨0, (3 : Nat), false, []⟩)).log = [] := by
  have h := C1_transaction_single_notification
      (Tx.TxOp.seq (Tx.TxOp.mutate (fun n => n + 1))
        (Tx.TxOp.tx (Tx.TxOp.mutate (fun n => n * 2)))) (3 : Nat) (by decide)
  exact ⟨by decide, h.1, h.2⟩

/-! ## Remove frame and no-op properties -/

/-- Claim C5: remove performs no state write when the resolved removal set
is an empty list (first conjunct) and when the collection is already empty,
whatever the target (third conjunct); and removing one id that is not
present in the collection leaves both ids and entities unchanged (second
conjunct). -/
theorem C5_remove_noop (w : EStore) (arg : RemoveArg) (x : Val) :
    (EStore.resolveRemove w arg = Option.some [] → EStore.remove w arg = w)
      ∧ ((alookup w.state.entities x = Option.none ∧ x ∉ w.state.ids) →
           (EStore.remove w (RemoveArg.one x)).state.ids = w.state.ids
             ∧ (EStore.remove w (RemoveArg.one x)).state.entities = w.state.entities)
      ∧ (w.state.ids = [] → EStore.remove w arg = w) := by
  refine ⟨?_, ?_, ?_⟩
  · intro h
    unfold EStore.remove
    by_cases he : w.state.ids.isEmpty
    · rw [if_pos he]
    · rw [if_neg he]
      simp [h]
  · rintro ⟨hent, hids⟩
    by_cases he : w.state.ids.isEmpty
    · unfold EStore.remove
      rw [if_pos he]
      exact ⟨rfl, rfl⟩
    · have hres : EStore.resolveRemove w (RemoveArg.one x) = Option.some [x] := rfl
      have hne : ¬ (EStore.resolveRemove w (RemoveArg.one x) = Option.some []) := by
        rw [hres]; simp
      have hstate : (EStore.remove w (RemoveArg.one x)).state
          = removeEntities w.state (Option.some [x]) := by
        unfold EStore.remove
        rw [if_neg he]
        simp only [hres]
        rw [if_neg (by simp)]
        rw [if_neg (by simp)]
        rfl
      have hidseq : (removeEntities w.state (Option.some [x])).ids = w.state.ids := by
        simp only [removeEntities]
        rw [List.filter_eq_self]
        intro a ha
        have : ¬ (x = a) := fun hh => hids (hh ▸ ha)
        simp [this]
      have hentseq : (removeEntities w.state (Option.some [x])).entities
          = w.state.entities := by
        simp only [removeEntities]
        rw [List.filter_eq_self]
        intro p hp
        have hpx : ¬ (p.1 = x) := by
          intro hh
          have : (alookup w.state.entities x).isSome = true :=
            (alookup_isSome_iff w.state.entities x).2 ⟨p, hp, hh⟩
          rw [hent] at this
          simp at this
        have : ¬ (x = p.1) := fun hh => hpx hh.symm
        simp [this]
      rw [hstate]
      exact ⟨hidseq, hentseq⟩
  · intro h
    unfold EStore.remove
    rw [if_pos (by simp [h])]

theorem C5_witness :
    EStore.resolveRemove ⟨⟨[Val.vnat 1], [(Val.vnat 1, [("id", Val.vnat 1)])], [], Option.none⟩,
        false, 0⟩ (RemoveArg.many []) = Option.some []
      ∧ EStore.remove ⟨⟨[Val.vnat 1], [(Val.vnat 1, [("id", Val.vnat 1)])], [], Option.none⟩,
          false, 0⟩ (RemoveArg.many [])
        = ⟨⟨[Val.vnat 1], [(Val.vnat 1, [("id", Val.vnat 1)])], [], Option.none⟩, false, 0⟩
      ∧ (EStore.remove ⟨⟨[Val.vnat 1], [(Val.vnat 1, [("id", Val.vnat 1)])], [], Option.none⟩,
          false, 0⟩ (RemoveArg.one (Val.vnat 5))).state.ids = [Val.vnat 1]
      ∧ (EStore.remove ⟨⟨[Val.vnat 1], [(Val.vnat 1, [("id", Val.vnat 1)])], [], Option.none⟩,
          false, 0⟩ (RemoveArg.one (Val.vnat 5))).state.entities
        = [(Val.vnat 1, [("id", Val.vnat 1)])]
      ∧ EStore.remove ⟨⟨[], [], [], Option.none⟩, false, 0⟩ (RemoveArg.one (Val.vnat 5))
        = ⟨⟨[], [], [], Option.none⟩, false, 0⟩ := by
  have h1 := C5_remove_noop ⟨⟨[Val.vnat 1], [(Val.vnat 1, [("id", Val.vnat 1)])], [],
      Option.none⟩, false, 0⟩ (RemoveArg.many []) (Val.vnat 5)
  have h2 := C5_remove_noop ⟨⟨[], [], [], Option.none⟩, false, 0⟩
      (RemoveArg.one (Val.vnat 5)) (Val.vnat 5)
  refine ⟨by decide, h1.1 (by decide), ?_, ?_, h2.2.2 (by decide)⟩
  · exact (h1.2.1 ⟨by decide, by decide⟩).1
  · exact (h1.2.1 ⟨by decide, by decide⟩).2

/-- Claim C7: a partial remove, whatever its target form (one id, an id
list, or a predicate), leaves the active sequence of the state unchanged
even when it references removed ids, and leaves the has cache flag
unchanged; only the remove all path, on a non empty collection, resets the
cache flag. -/
theorem C7_partial_remove_frame (w : EStore) (arg : RemoveArg) :
    (arg ≠ RemoveArg.absent →
       (EStore.remove w arg).state.active = w.state.active
         ∧ (EStore.remove w arg).hasCache = w.hasCache)
      ∧ (w.state.ids ≠ [] → (EStore.remove w RemoveArg.absent).hasCache = false) := by
  constructor
  · intro hne
    by_cases he : w.state.ids.isEmpty
    · unfold EStore.remove
      rw [if_pos he]
      exact ⟨rfl, rfl⟩
    · obtain ⟨l, hl⟩ : ∃ l, EStore.resolveRemove w arg = Option.some l := by
        cases arg with
        | absent => exact absurd rfl hne
        | one i => exact ⟨[i], rfl⟩
        | many l => exact ⟨l, rfl⟩
        | byPred p => exact ⟨_, rfl⟩
      unfold EStore.remove
      rw [if_neg he]
      simp only [hl]
      by_cases hnil : l = []
      · rw [if_pos (by rw [hnil])]
        exact ⟨rfl, rfl⟩
      · rw [if_neg (by simpa using hnil)]
        rw [if_neg (by simp)]
        exact ⟨rfl, rfl⟩
  · intro h
    unfold EStore.remove
    rw [if_neg (by simpa using h)]
    simp only [EStore.resolveRemove]
    rw [if_neg (by simp)]
    simp [EStore.setState, EStore.setHasCache]

theorem C7_witness :
    RemoveArg.one (Val.vnat 1) ≠ RemoveArg.absent
      ∧ (EStore.remove ⟨⟨[Val.vnat 1, Val.vnat 2],
            [(Val.vnat 1, [("id", Val.vnat 1)]), (Val.vnat 2, [("id", Val.vnat 2)])],
            [Val.vnat 1], Option.none⟩, true, 0⟩
          (RemoveArg.one (Val.vnat 1))).state.active = [Val.vnat 1]
      ∧ (EStore.remove ⟨⟨[Val.vnat 1, Val.vnat 2],
            [(Val.vnat 1, [("id", Val.vnat 1)]), (Val.vnat 2, [("id", Val.vnat 2)])],
            [Val.vnat 1], Option.none⟩, true, 0⟩
          (RemoveArg.one (Val.vnat 1))).hasCache = true
      ∧ (EStore.remove ⟨⟨[Val.vnat 1, Val.vnat 2],
            [(Val.vnat 1, [("id", Val.vnat 1)]), (Val.vnat 2, [("id", Val.vnat 2)])],
            [Val.vnat 1], Option.none⟩, true, 0⟩ RemoveArg.absent).hasCache = false := by
  have h := C7_partial_remove_frame ⟨⟨[Val.vnat 1, Val.vnat 2],
      [(Val.vnat 1, [("id", Val.vnat 1)]), (Val.vnat 2, [("id", Val.vnat 2)])],
      [Val.vnat 1], Option.none⟩, true, 0⟩ (RemoveArg.one (Val.vnat 1))
  have hne : RemoveArg.one (Val.vnat 1) ≠ RemoveArg.absent := fun hh => nomatch hh
  exact ⟨hne, (h.1 hne).1, (h.1 hne).2, h.2 (by decide)⟩

/-! ## Upsert totality -/

theorem getIdV_merge_idKey (patch : Obj) (x : Val) :
    getIdV (objMerge patch [(idKey, x)]) = x := by
  unfold getIdV objGet objMerge
  rw [List.find?_append]
  have h1 : List.find? (fun p => decide (p.1 = idKey))
      (patch.filter (fun p => !([(idKey, x)].any (fun q => decide (q.1 = p.1)))))
        = Option.none := by
    rw [List.find?_eq_none]
    intro p hp
    rw [List.mem_filter] at hp
    have h2 := hp.2
    simp only [List.any_cons, List.any_nil, Bool.or_false, Bool.not_eq_true',
      decide_eq_false_iff_not] at h2
    simp only [decide_eq_true_eq]
    exact fun hh => h2 hh.symm
  rw [h1]
  simp [List.find?]

/-- Claim C2: upsert with one id and an object patch is total on that id.
If the id pre exists with entity e, the stored entity afterwards is e with
the fields of the patch merged on top and the id list is unchanged; if the
id is absent, the stored entity is the patch merged with the id key bound
to the id, and the id is appended to the id list. In both cases the entity
exists afterwards. -/
theorem C2_upsert_total (w : EStore) (x : Val) (patch : Obj) :
    (∀ e, alookup w.state.entities x = Option.some e →
        alookup (EStore.upsert w [x] patch).state.entities x
            = Option.some (objMerge e patch)
          ∧ (EStore.upsert w [x] patch).state.ids = w.state.ids)
      ∧ (alookup w.state.entities x = Option.none →
        alookup (EStore.upsert w [x] patch).state.entities x
            = Option.some (objMerge patch [(idKey, x)])
          ∧ (EStore.upsert w [x] patch).state.ids = w.state.ids ++ [x]) := by
  constructor
  · intro e he
    have hhas : hasEntity w.state.entities x = true := by
      simp [hasEntity, he]
    have hup : EStore.upsert w [x] patch
        = EStore.add (EStore.update w [x] patch) [] EStore.defaultAddOptions := by
      unfold EStore.upsert
      simp [hhas]
    have hadd : EStore.add (EStore.update w [x] patch) [] EStore.defaultAddOptions
        = EStore.update w [x] patch := rfl
    rw [hup, hadd]
    have hupd : (EStore.update w [x] patch).state
        = updateEntities w.state [x] patch := by
      unfold EStore.update
      rw [if_neg (by simp)]
      rfl
    rw [hupd]
    constructor
    · simp only [updateEntities, List.foldl_cons, List.foldl_nil, he, Option.getD_some]
      exact alookup_aset_self w.state.entities x (objMerge e patch)
    · rfl
  · intro he
    have hhas : hasEntity w.state.entities x = false := by
      simp [hasEntity, he]
    have hup : EStore.upsert w [x] patch
        = EStore.add w [objMerge patch [(idKey, x)]] EStore.defaultAddOptions := by
      unfold EStore.upsert
      simp [hhas, EStore.update]
    rw [hup]
    have hadd : (EStore.add w [objMerge patch [(idKey, x)]] EStore.defaultAddOptions).state
        = { addEntities w.state [objMerge patch [(idKey, x)]] false with
            loading := Option.some false } := by
      unfold EStore.add
      rw [if_neg (by simp)]
      rfl
    rw [hadd]
    constructor
    · simp only [addEntities, List.foldl_cons, List.foldl_nil, getIdV_merge_idKey]
      exact alookup_aset_self w.state.entities x (objMerge patch [(idKey, x)])
    · simp [addEntities, getIdV_merge_idKey]

theorem C2_witness :
    alookup ([(Val.vnat 1, [("id", Val.vnat 1), ("title", Val.vstr "a")])]) (Val.vnat 1)
        = Option.some [("id", Val.vnat 1), ("title", Val.vstr "a")]
      ∧ alookup (EStore.upsert ⟨⟨[Val.vnat 1],
            [(Val.vnat 1, [("id", Val.vnat 1), ("title", Val.vstr "a")])], [], Option.none⟩,
            false, 0⟩ [Val.vnat 1] [("title", Val.vstr "b")]).state.entities (Val.vnat 1)
        = Option.some (objMerge [("id", Val.vnat 1), ("title", Val.vstr "a")]
            [("title", Val.vstr "b")])
      ∧ (EStore.upsert ⟨⟨[Val.vnat 1],
            [(Val.vnat 1, [("id", Val.vnat 1), ("title", Val.vstr "a")])], [], Option.none⟩,
            false, 0⟩ [Val.vnat 1] [("title", Val.vstr "b")]).state.ids = [Val.vnat 1]
      ∧ alookup (EStore.upsert ⟨⟨[], [], [], Option.none⟩, false, 0⟩
            [Val.vnat 2] [("title", Val.vstr "t")]).state.entities (Val.vnat 2)
        = Option.some (objMerge [("title", Val.vstr "t")] [(idKey, Val.vnat 2)])
      ∧ (EStore.upsert ⟨⟨[], [], [], Option.none⟩, false, 0⟩
            [Val.vnat 2] [("title", Val.vstr "t")]).state.ids = [Val.vnat 2] := by
  have h1 := (C2_upsert_total ⟨⟨[Val.vnat 1],
      [(Val.vnat 1, [("id", Val.vnat 1), ("title", Val.vstr "a")])], [], Option.none⟩,
      false, 0⟩ (Val.vnat 1) [("title", Val.vstr "b")]).1
      [("id", Val.vnat 1), ("title", Val.vstr "a")] (by decide)
  have h2 := (C2_upsert_total ⟨⟨[], [], [], Option.none⟩, false, 0⟩
      (Val.vnat 2) [("title", Val.vstr "t")]).2 (by decide)
  exact ⟨by decide, h1.1, h1.2, h2.1, h2.2⟩

/-! ## Reconciliation completeness -/

theorem hasKey_create_step {P : Type} (inst : Val → P) (m : List (Val × P)) (j i : Val) :
    (alookup (if (alookup m j).isSome then m else aset m j (inst j)) i).isSome = true
      ↔ (i = j ∨ (alookup m i).isSome = true) := by
  by_cases h : (alookup m j).isSome = true
  · rw [if_pos h]
    constructor
    · exact Or.inr
    · rintro (rfl | hi)
      · exact h
      · exact hi
  · rw [if_neg h]
    by_cases hij : i = j
    · subst hij
      simp [alookup_aset_self]
    · rw [alookup_aset_ne m j i _ hij]
      simp [hij]

theorem hasKey_foldl_create {P : Type} (inst : Val → P) :
    ∀ (l : List Val) (m : List (Val × P)) (i : Val),
      (alookup (l.foldl
            (fun acc j => if (alookup acc j).isSome then acc else aset acc j (inst j)) m)
          i).isSome = true
        ↔ (i ∈ l ∨ (alookup m i).isSome = true) := by
  intro l
  induction l with
  | nil => simp
  | cons j t ih =>
    intro m i
    rw [List.foldl_cons, ih, hasKey_create_step]
    simp only [List.mem_cons]
    tauto

/-- One truthy all ids mode rebase forces the satellite key set to be
exactly the set of changed ids, whatever the mapping held before. -/
theorem rebase_all_hasKey {P : Type} (inst : Val → P) (q : List Val) (l : List Val)
    (hl : l ≠ []) (m : List (Val × P)) (i : Val) :
    (alookup (Plugin.rebase inst Option.none q (Option.some l) m) i).isSome = true
      ↔ i ∈ l := by
  have hb : toBooleanIds (Option.some l) = true := by
    simp [toBooleanIds, hl]
  unfold Plugin.rebase
  rw [if_pos hb]
  simp only [Option.getD_some]
  rw [alookup_filter_mem, hasKey_foldl_create]
  constructor
  · exact And.right
  · intro h
    exact ⟨Or.inl h, h⟩

/-- The initial seed of an all ids mode plugin tracks exactly the current
ids of the collection. -/
theorem seedAll_hasKey {P : Type} (inst : Val → P) (w : EStore) (i : Val) :
    (alookup (seedAll inst w) i).isSome = true ↔ i ∈ w.state.ids := by
  unfold seedAll Plugin.rebase
  rw [if_neg (by simp [toBooleanIds])]
  rw [hasKey_foldl_create]
  simp [Plugin.getIds, alookup]

theorem pluginRun_invariant {P : Type} (inst : Val → P) :
    ∀ (ops : List CollOp) (w : EStore) (m : List (Val × P)),
      stepsOk ops w = true →
      (∀ i, (alookup m i).isSome = true ↔ i ∈ w.state.ids) →
      ∀ i, (alookup (pluginRun inst (w, m) ops).2 i).isSome = true ↔
             i ∈ (pluginRun inst (w, m) ops).1.state.ids := by
  intro ops
  induction ops with
  | nil =>
    intro w m _ hinv i
    exact hinv i
  | cons op rest ih =>
    intro w m hok hinv i
    rw [stepsOk] at hok
    rw [Bool.and_eq_true] at hok
    have hne : (applyCollOp op w).state.ids ≠ [] := by
      have := hok.1
      simp only [Bool.not_eq_true'] at this
      simpa [List.isEmpty_iff] using this
    have hstep : pluginRun inst (w, m) (op :: rest)
        = pluginRun inst (pluginStep inst (w, m) op) rest := rfl
    rw [hstep]
    exact ih (applyCollOp op w) _ hok.2
      (fun j => rebase_all_hasKey inst (applyCollOp op w).state.ids
        (applyCollOp op w).state.ids hne m j) i

/-- Claim C3: for an all ids mode plugin seeded on its collection, after
any sequence of set, add and remove operations, each of which leaves a non
empty id list and triggers a reconciliation with that list, the set of ids
owning a satellite equals exactly the set of ids currently in the
collection. -/
theorem C3_reconciliation_completeness {P : Type} (inst : Val → P) (ops : List CollOp)
    (w0 : EStore) (hok : stepsOk ops w0 = true) :
    ∀ i, (alookup (pluginRun inst (w0, seedAll inst w0) ops).2 i).isSome = true ↔
           i ∈ (pluginRun inst (w0, seedAll inst w0) ops).1.state.ids :=
  pluginRun_invariant inst ops w0 (seedAll inst w0) hok (seedAll_hasKey inst w0)

theorem C3_witness :
    stepsOk [CollOp.cset [[("id", Val.vnat 1)], [("id", Val.vnat 2)]],
        CollOp.crem (RemoveArg.one (Val.vnat 1))] ⟨⟨[], [], [], Option.none⟩, false, 0⟩ = true
      ∧ ((alookup (pluginRun (fun _ => ())
            (⟨⟨[], [], [], Option.none⟩, false, 0⟩,
              seedAll (fun _ => ()) ⟨⟨[], [], [], Option.none⟩, false, 0⟩)
            [CollOp.cset [[("id", Val.vnat 1)], [("id", Val.vnat 2)]],
              CollOp.crem (RemoveArg.one (Val.vnat 1))]).2 (Val.vnat 2)).isSome = true
          ↔ Val.vnat 2 ∈ (pluginRun (fun _ => ())
            (⟨⟨[], [], [], Option.none⟩, false, 0⟩,
              seedAll (fun _ => ()) ⟨⟨[], [], [], Option.none⟩, false, 0⟩)
            [CollOp.cset [[("id", Val.vnat 1)], [("id", Val.vnat 2)]],
              CollOp.crem (RemoveArg.one (Val.vnat 1))]).1.state.ids) := by
  refine ⟨by decide, ?_⟩
  exact C3_reconciliation_completeness (fun _ => ())
    [CollOp.cset [[("id", Val.vnat 1)], [("id", Val.vnat 2)]],
      CollOp.crem (RemoveArg.one (Val.vnat 1))]
    ⟨⟨[], [], [], Option.none⟩, false, 0⟩ (by decide) (Val.vnat 2)

end Akita
